import Mathlib

/-!
Verification of the cross-language API surface and signature comparison
engine of this repository against its design specification.

The two scripts under `scripts/` are embedded shallowly:

* `scripts/check_api_compatibility.py` — reference-compatibility mode
  ("Mode B"): `extract_js_methods`, `extract_python_methods`,
  `js_to_python_name`, `compare_apis` and the verdict logic of `main`.
* `scripts/audit_api_surface.py` — surface-audit mode ("Mode A"):
  `normalize_name`, `extract_methods` and the verdict logic of `main`.

Python strings are modelled as Lean `String` / `List Char`; Python dicts
keyed by method name are modelled as association lists that keep the
source's insertion-order semantics (`dictInsert` overwrites the value of
an existing key in place, `dictAppend` appends to it — exactly the
behaviours used by the scripts).  Python `re` calls are embedded as
recursive matchers over `List Char` specialised to the concrete patterns
appearing in the source.
-/

set_option autoImplicit false

namespace Circular

/-! ### Character classes

Python's `str.strip()` whitespace set and the ASCII character classes
used by the regular expressions in both scripts (`[a-z0-9]`, `[A-Z]`,
`\w`, `\s`).  Classes are expressed on the codepoint so that the case
arithmetic of `str.lower()` stays in `Nat`. -/

/-- Python whitespace: space, tab, newline, carriage return, vertical tab,
form feed (the characters stripped by `str.strip()` and matched by `\s`). -/
def isPySpace (c : Char) : Bool :=
  c = ' ' || c = '\t' || c = '\n' || c = '\r' || c = '\x0b' || c = '\x0c'

/-- The regex class `[a-z0-9]` (left context of the camelCase sub). -/
def isLowerDigitChar (c : Char) : Bool :=
  (97 ≤ c.toNat && c.toNat ≤ 122) || (48 ≤ c.toNat && c.toNat ≤ 57)

/-- The regex class `[A-Z]`. -/
def isUpperChar (c : Char) : Bool :=
  65 ≤ c.toNat && c.toNat ≤ 90

/-- The regex class `\w` = `[a-zA-Z0-9_]`. -/
def isWordChar (c : Char) : Bool :=
  (97 ≤ c.toNat && c.toNat ≤ 122) || (65 ≤ c.toNat && c.toNat ≤ 90) ||
    (48 ≤ c.toNat && c.toNat ≤ 57) || c = '_'

/-- ASCII case mapping of Python's `str.lower()` (the only case mapping the
scripts' ASCII method names exercise): `A`–`Z` shift by 32, everything else
is unchanged. -/
def pyLowerChar (c : Char) : Char :=
  if isUpperChar c then Char.ofNat (c.toNat + 32) else c

/-! ### `str.strip` and comma splitting -/

/-- `str.strip()` on a character list: drop Python whitespace from both ends. -/
def stripChars (l : List Char) : List Char :=
  ((l.dropWhile isPySpace).reverse.dropWhile isPySpace).reverse

/-- `str.strip()` on strings. -/
def stripStr (s : String) : String :=
  String.mk (stripChars s.data)

/-- `name.startswith('_')`: the private-visibility marker test used by
both scripts' extractors. -/
def startsUnderscore (s : String) : Bool :=
  match s.data with
  | [] => false
  | c :: _ => c = '_'

/-- Python's `s.split(',')`: split at every comma, keeping empty pieces
(`"".split(',') == ['']`). -/
def splitCommas : List Char → List (List Char)
  | [] => [[]]
  | c :: rest =>
    if c = ',' then [] :: splitCommas rest
    else
      match splitCommas rest with
      | t :: ts => (c :: t) :: ts
      | [] => [[c]]

/-- `len([p for p in tokens if p.strip()])`: the number of comma pieces that
are non-empty after stripping. -/
def countNonBlank (l : List (List Char)) : Nat :=
  (l.filter (fun t => ¬ stripChars t = [])).length

/-- Parameter count of a raw JS parameter-list string, from
`compare_apis` (scripts/check_api_compatibility.py line 102):
`len([p for p in js_param_str.split(',') if p.strip()]) if js_param_str else 0`. -/
def jsParamCount (s : String) : Nat :=
  if s.data = [] then 0 else countNonBlank (splitCommas s.data)

/-- Recursion core of `stripHints`; the fuel argument only bounds the
recursion depth (one unit per character consumed suffices, see
`stripHints`). -/
def stripHintsAux : Nat → List Char → List Char
  | 0, l => l
  | _, [] => []
  | fuel + 1, c :: rest =>
    if c = ':' then
      let run := rest.takeWhile (fun d => ¬ d = ',' && ¬ d = '=')
      if run.length = 0 then c :: stripHintsAux fuel rest
      else stripHintsAux fuel (rest.drop run.length)
    else c :: stripHintsAux fuel rest

/-- `re.sub(r':\s*[^,=]+', '', s)` from `compare_apis`
(scripts/check_api_compatibility.py line 106): at each colon that is
followed by at least one character other than a comma or equals sign,
delete the colon together with the maximal following run of such
characters, and continue scanning after the run. -/
def stripHints (l : List Char) : List Char :=
  stripHintsAux l.length l

/-- Parameter count of a raw Python parameter-list string, from
`compare_apis` (scripts/check_api_compatibility.py lines 106–107): type
hints are removed first, then the count is taken as for JS — on the
cleaned string. -/
def pyParamCount (s : String) : Nat :=
  let clean := stripHints s.data
  if clean = [] then 0 else countNonBlank (splitCommas clean)

/-! ### Spec-side signature parser

The specification's §4.1 contract, used only to compare against the
code's parser. -/

/-- Modelled from the spec: split on top-level commas only, a depth
counter tracking angle brackets, parentheses and square brackets. -/
def specSplitTopAux : Nat → List Char → List (List Char)
  | _, [] => [[]]
  | d, c :: rest =>
    if c = ',' && d = 0 then [] :: specSplitTopAux 0 rest
    else
      let d' :=
        if c = '<' || c = '(' || c = '[' then d + 1
        else if c = '>' || c = ')' || c = ']' then d - 1
        else d
      match specSplitTopAux d' rest with
      | t :: ts => (c :: t) :: ts
      | [] => [[c]]

/-- Modelled from the spec (§4.1): the arity of a parameter list is the
number of top-level comma-separated tokens that are non-blank after
stripping; an empty or whitespace-only input yields zero tokens. -/
def specTopLevelArity (s : String) : Nat :=
  countNonBlank (specSplitTopAux 0 s.data)

/-! ### Name normalization

`re.sub('([a-z0-9])([A-Z])', r'\1_\2', name)` followed by `.lower()`,
as implemented identically by `js_to_python_name`
(scripts/check_api_compatibility.py lines 69–76) and by the
camelCase/PascalCase branch of `normalize_name`
(scripts/audit_api_surface.py lines 67–75). -/

/-- The `re.sub('([a-z0-9])([A-Z])', r'\1_\2', ·)` pass: `re.sub` scans
left to right with non-overlapping matches, so after a match both matched
characters are consumed.  (Consumption loses no later match: the consumed
second character is an uppercase letter, which can never be the `[a-z0-9]`
left context of a following match.) -/
def camelSub : List Char → List Char
  | [] => []
  | [c] => [c]
  | c1 :: c2 :: rest =>
    if isLowerDigitChar c1 && isUpperChar c2 then c1 :: '_' :: c2 :: camelSub rest
    else c1 :: camelSub (c2 :: rest)

/-- `js_to_python_name` (scripts/check_api_compatibility.py lines 69–76):
insert an underscore at every `[a-z0-9][A-Z]` boundary, then lowercase. -/
def js_to_python_name (js_name : String) : String :=
  String.mk ((camelSub js_name.data).map pyLowerChar)

/-- `normalize_name` (scripts/audit_api_surface.py lines 67–75).  The
camelCase/PascalCase branch performs the same substitution-and-lowercase
as `js_to_python_name`; any unknown convention tag falls through to the
name unchanged. -/
def normalize_name (name : String) (from_case : String) : String :=
  if from_case = "snake_case" then name
  else if from_case = "camelCase" ∨ from_case = "PascalCase" then
    js_to_python_name name
  else name

/-! ### Spec-side normalizer -/

/-- Modelled from the spec (§4.3): the separator-insertion pass described
pointwise — a separator goes immediately before every uppercase letter
that is immediately preceded by a lowercase letter or digit.  `prev` is
the preceding character. -/
def specInsertAux (prev : Char) : List Char → List Char
  | [] => []
  | c :: rest =>
    (if isUpperChar c && isLowerDigitChar prev then ['_', c] else [c]) ++
      specInsertAux c rest

/-- Modelled from the spec (§4.3): the first character has no predecessor,
so it is never preceded by a separator. -/
def specInsert : List Char → List Char
  | [] => []
  | c :: rest => c :: specInsertAux c rest

/-- Modelled from the spec (§4.3): insert separators, then lowercase the
whole string. -/
def specNormalize (s : String) : String :=
  String.mk ((specInsert s.data).map pyLowerChar)

/-! ### Facts about the case functions -/

theorem isValidChar_of_le (n : Nat) (h : n < 55296) : n.isValidChar :=
  Or.inl h

theorem toNat_ofNat_of_lt (n : Nat) (h : n < 55296) : (Char.ofNat n).toNat = n := by
  unfold Char.ofNat
  rw [dif_pos (isValidChar_of_le n h)]
  rfl

theorem isUpperChar_pyLowerChar (c : Char) : isUpperChar (pyLowerChar c) = false := by
  unfold pyLowerChar
  by_cases h : isUpperChar c = true
  · rw [if_pos h]
    unfold isUpperChar at *
    have hn : c.toNat + 32 < 55296 := by
      simp only [Bool.and_eq_true, decide_eq_true_eq] at h
      omega
    simp only [toNat_ofNat_of_lt _ hn]
    simp only [Bool.and_eq_true, decide_eq_true_eq] at h ⊢
    simp only [Bool.and_eq_false_iff, decide_eq_false_iff_not]
    omega
  · rw [if_neg h]
    exact Bool.eq_false_iff.mpr h

theorem pyLowerChar_of_not_upper (c : Char) (h : isUpperChar c = false) :
    pyLowerChar c = c := by
  unfold pyLowerChar
  rw [if_neg (by simp [h])]

theorem pyLowerChar_idem (c : Char) :
    pyLowerChar (pyLowerChar c) = pyLowerChar c :=
  pyLowerChar_of_not_upper _ (isUpperChar_pyLowerChar c)

theorem not_lowerDigit_of_upper (c : Char) (h : isUpperChar c = true) :
    isLowerDigitChar c = false := by
  unfold isUpperChar at h
  unfold isLowerDigitChar
  simp only [Bool.and_eq_true, decide_eq_true_eq] at h
  simp only [Bool.or_eq_false_iff, Bool.and_eq_false_iff, decide_eq_false_iff_not]
  omega

/-- On a string without uppercase letters the substitution pass does
nothing. -/
theorem camelSub_of_no_upper (l : List Char)
    (h : ∀ c ∈ l, isUpperChar c = false) : camelSub l = l := by
  match l with
  | [] => rfl
  | [c] => rfl
  | c1 :: c2 :: rest =>
    have h2 : isUpperChar c2 = false := h c2 (by simp)
    rw [camelSub, if_neg (by simp [h2])]
    have := camelSub_of_no_upper (c2 :: rest)
      (fun c hc => h c (List.mem_cons_of_mem _ hc))
    rw [this]

theorem js_to_python_name_idem (s : String) :
    js_to_python_name (js_to_python_name s) = js_to_python_name s := by
  unfold js_to_python_name
  have hdata : (String.mk ((camelSub s.data).map pyLowerChar)).data
      = (camelSub s.data).map pyLowerChar := rfl
  rw [hdata]
  have hno : ∀ c ∈ (camelSub s.data).map pyLowerChar, isUpperChar c = false := by
    intro c hc
    rcases List.mem_map.mp hc with ⟨d, _, rfl⟩
    exact isUpperChar_pyLowerChar d
  rw [camelSub_of_no_upper _ hno, List.map_map]
  congr 1
  exact List.map_congr_left (fun c _ => pyLowerChar_idem c)

/-- The left-to-right non-overlapping scan of `re.sub` computes exactly
the spec's pointwise description of separator insertion. -/
theorem camelSub_eq_specInsert (l : List Char) : camelSub l = specInsert l := by
  match l with
  | [] => rfl
  | [c] => rfl
  | c1 :: c2 :: rest =>
    by_cases h : (isLowerDigitChar c1 && isUpperChar c2) = true
    · rw [camelSub, if_pos h, specInsert, specInsertAux]
      simp only [Bool.and_eq_true] at h
      rw [if_pos (by simp [h.1, h.2])]
      have hc2 : isLowerDigitChar c2 = false := not_lowerDigit_of_upper c2 h.2
      have haux : specInsertAux c2 rest = specInsert rest := by
        match rest with
        | [] => rfl
        | d :: ds =>
          rw [specInsertAux, specInsert, if_neg (by simp [hc2])]
          simp
      rw [camelSub_eq_specInsert rest, haux]
      simp
    · rw [camelSub, if_neg h, specInsert, specInsertAux]
      rw [if_neg (by
        simp only [Bool.and_eq_true, not_and] at h ⊢
        intro hu hl
        exact absurd hu (by
          by_cases hld : isLowerDigitChar c1 = true
          · simp [h hld]
          · exact absurd hl (by simp_all)))]
      have : specInsertAux c2 rest = match specInsert (c2 :: rest) with
        | [] => []
        | _ :: t => t := by rw [specInsert]
      rw [camelSub_eq_specInsert (c2 :: rest), specInsert]
      simp

/-! ### Python dicts as insertion-ordered association lists -/

/-- `d[k] = v` on a dict: replace the value of an existing key in place,
otherwise append the new binding at the end (Python dict insertion
order). -/
def dictInsert {α : Type} (k : String) (v : α) : List (String × α) → List (String × α)
  | [] => [(k, v)]
  | (k', v') :: rest =>
    if k' = k then (k', v) :: rest else (k', v') :: dictInsert k v rest

/-- `d.setdefault(k, []).append(v)` as used by both extractors: append `v`
to the list bound to `k`, creating the binding if needed. -/
def dictAppend (k : String) (v : String) :
    List (String × List String) → List (String × List String)
  | [] => [(k, [v])]
  | (k', vs) :: rest =>
    if k' = k then (k', vs ++ [v]) :: rest else (k', vs) :: dictAppend k v rest

/-- Dict lookup `d[k]` / `k in d`. -/
def dlookup {α : Type} (k : String) : List (String × α) → Option α
  | [] => none
  | (k', v) :: rest => if k' = k then some v else dlookup k rest

/-- The key list of a dict. -/
def dkeys {α : Type} (d : List (String × α)) : List String :=
  d.map Prod.fst

theorem dlookup_dictInsert_self {α : Type} (k : String) (v : α)
    (d : List (String × α)) : dlookup k (dictInsert k v d) = some v := by
  induction d with
  | nil => simp [dictInsert, dlookup]
  | cons p rest ih =>
    obtain ⟨k', v'⟩ := p
    by_cases h : k' = k
    · simp [dictInsert, dlookup, h]
    · simp [dictInsert, dlookup, h, ih]

theorem dlookup_dictInsert_ne {α : Type} (k k' : String) (v : α)
    (d : List (String × α)) (h : k ≠ k') :
    dlookup k' (dictInsert k v d) = dlookup k' d := by
  induction d with
  | nil => simp [dictInsert, dlookup, h]
  | cons p rest ih =>
    obtain ⟨k'', v''⟩ := p
    by_cases h2 : k'' = k
    · subst h2
      simp [dictInsert, dlookup, h]
    · simp [dictInsert, dlookup, h2, ih]

theorem dkeys_dictInsert {α : Type} (k : String) (v : α) (d : List (String × α)) :
    dkeys (dictInsert k v d) = if k ∈ dkeys d then dkeys d else dkeys d ++ [k] := by
  induction d with
  | nil => simp [dictInsert, dkeys]
  | cons p rest ih =>
    obtain ⟨k', v'⟩ := p
    by_cases h : k' = k
    · subst h
      simp [dictInsert, dkeys]
    · have : ¬ k = k' := fun hk => h hk.symm
      simp only [dictInsert, if_neg h, dkeys, List.map_cons]
      simp only [dkeys] at ih
      rw [ih]
      by_cases hm : k ∈ rest.map Prod.fst
      · simp [hm, this]
      · simp [hm, this]

theorem dkeys_nodup_dictInsert {α : Type} (k : String) (v : α)
    (d : List (String × α)) (h : (dkeys d).Nodup) :
    (dkeys (dictInsert k v d)).Nodup := by
  rw [dkeys_dictInsert]
  by_cases hm : k ∈ dkeys d
  · simpa [hm]
  · simp only [hm, if_false]
    simpa [List.nodup_append] using ⟨h, fun hk => hm hk⟩

@[simp] theorem dkeys_nil {α : Type} : dkeys ([] : List (String × α)) = [] := rfl

@[simp] theorem dkeys_cons {α : Type} (k : String) (v : α) (d : List (String × α)) :
    dkeys ((k, v) :: d) = k :: dkeys d := rfl

theorem mem_of_dlookup_eq_some {α : Type} (k : String) (v : α)
    (d : List (String × α)) (h : dlookup k d = some v) : (k, v) ∈ d := by
  induction d with
  | nil => simp [dlookup] at h
  | cons p rest ih =>
    obtain ⟨k', v'⟩ := p
    simp only [dlookup] at h
    by_cases h2 : k' = k
    · rw [if_pos h2] at h
      injection h with hv
      subst h2
      subst hv
      exact List.mem_cons_self _ _
    · rw [if_neg h2] at h
      exact List.mem_cons_of_mem _ (ih h)

theorem dlookup_eq_some_of_mem {α : Type} (k : String) (v : α)
    (d : List (String × α)) (hnd : (dkeys d).Nodup) (h : (k, v) ∈ d) :
    dlookup k d = some v := by
  induction d with
  | nil => simp at h
  | cons p rest ih =>
    obtain ⟨k', v'⟩ := p
    simp only [dkeys_cons, List.nodup_cons] at hnd
    rcases List.mem_cons.mp h with heq | hmem
    · injection heq with h1 h2
      subst h1
      subst h2
      simp [dlookup]
    · have hk : ¬ k' = k := by
        intro hkk
        subst hkk
        exact hnd.1 (List.mem_map.mpr ⟨(k', v), hmem, rfl⟩)
      simp only [dlookup, if_neg hk]
      exact ih hnd.2 hmem

theorem dlookup_eq_none_iff {α : Type} (k : String) (d : List (String × α)) :
    dlookup k d = none ↔ k ∉ dkeys d := by
  induction d with
  | nil => simp [dlookup]
  | cons p rest ih =>
    obtain ⟨k', v'⟩ := p
    by_cases h : k' = k
    · subst h
      simp [dlookup]
    · simp only [dlookup, if_neg h, dkeys_cons, List.mem_cons]
      rw [ih]
      constructor
      · intro hn hor
        rcases hor with hkk | hm
        · exact h hkk.symm
        · exact hn hm
      · intro hn hm
        exact hn (Or.inr hm)

/-! ### Mode B: `compare_apis` and the verdict of `main`
(scripts/check_api_compatibility.py) -/

/-- The dict comprehension of `compare_apis` line 86:
`{js_to_python_name(name): params for name, params in js_methods.items()}`.
Iterating the items in order and assigning into a fresh dict means a later
raw name whose normalized key collides with an earlier one overwrites the
earlier parameter lists. -/
def expectedPy (js_methods : List (String × List String)) :
    List (String × List String) :=
  js_methods.foldl (fun d p => dictInsert (js_to_python_name p.1) p.2 d) []

/-- The inner double loop of `compare_apis` lines 101–112 for one key of
the intersection: every (canonical occurrence, target occurrence) pair
with differing parameter counts yields one mismatch record
`(key, js_count, py_count)`.  (The source formats the record as a string;
the three fields interpolated into it are kept as a triple.) -/
def pairMismatches (k : String) (js_params py_params : List String) :
    List (String × Nat × Nat) :=
  js_params.flatMap fun a =>
    py_params.filterMap fun b =>
      if jsParamCount a ≠ pyParamCount b then
        some (k, jsParamCount a, pyParamCount b)
      else none

/-- The result triple of `compare_apis`: `(missing, extra, mismatches)`. -/
structure CompareResult where
  missing : List String
  extra : List String
  mismatches : List (String × Nat × Nat)
deriving DecidableEq, Repr

/-- `compare_apis` (scripts/check_api_compatibility.py lines 78–114).
`missing`/`extra` are the sorted set differences of the normalized key
sets; `mismatches` collects, for every key in both dicts, all cross-pairs
of occurrences with differing parameter counts.  (Python iterates the
intersection as an unordered set; since the expected dict's keys are
unique, iterating them in insertion order visits the same keys once
each.) -/
def compare_apis (js_methods py_methods : List (String × List String)) :
    CompareResult :=
  CompareResult.mk
    (((dkeys (expectedPy js_methods)).filter
        (fun k => ¬ k ∈ dkeys py_methods)).insertionSort (· ≤ ·))
    (((dkeys py_methods).filter
        (fun k => ¬ k ∈ dkeys (expectedPy js_methods))).insertionSort (· ≤ ·))
    ((expectedPy js_methods).flatMap fun p =>
      match dlookup p.1 py_methods with
      | some py_params => pairMismatches p.1 p.2 py_params
      | none => [])

/-- The verdict logic of `main` (scripts/check_api_compatibility.py lines
147–176): `has_issues` is set by a non-empty `missing` list and by a
non-empty `mismatches` list — but not by `extra`. -/
def modeB_has_issues (r : CompareResult) : Bool :=
  ¬ r.missing = [] || ¬ r.mismatches = []

/-- Exit status of the comparison part of `main`: 1 on issues, else 0. -/
def modeB_exit (js_methods py_methods : List (String × List String)) : Nat :=
  if modeB_has_issues (compare_apis js_methods py_methods) then 1 else 0

/-- `main` (scripts/check_api_compatibility.py lines 116–176) around the
file-existence checks: a missing reference file, and then a missing
generated-SDK file, each return exit status 1 before any extraction or
comparison happens; otherwise the comparison runs and a report is
produced.  A language's extracted method dict stands in for its source
file; `none` models a file that does not exist. -/
def modeB_main (js_file py_file : Option (List (String × List String))) :
    Nat × Option CompareResult :=
  match js_file with
  | none => (1, none)
  | some js_methods =>
    match py_file with
    | none => (1, none)
    | some py_methods =>
      (modeB_exit js_methods py_methods, some (compare_apis js_methods py_methods))

/-! ### Mode A: `audit_api_surface.py`

The per-language configuration (`SDK_CONFIGS`) plus the outcome of the
`re.finditer` scan: the declaration pattern's matches over the language's
source text are modelled as the ordered list of captured raw names
(`candidates`), with `none` standing for a file that does not exist. -/

structure AProfile where
  lang : String
  /-- `none`: the SDK file is absent; `some cands`: the ordered raw names
  captured by `re.finditer(config['pattern'], content, re.MULTILINE)`. -/
  source : Option (List String)
  exclude : List String
  naming : String

/-- `extract_methods` (scripts/audit_api_surface.py lines 77–94): a
missing file prints a warning and yields the empty set (first component:
was the warning issued); otherwise every candidate that is not excluded
and does not start with an underscore is normalized and added to the
set. -/
def extract_methods (p : AProfile) : Bool × Finset String :=
  match p.source with
  | none => (true, ∅)
  | some cands =>
    (false,
      ((cands.filter (fun m => ¬ m ∈ p.exclude && ¬ startsUnderscore m)).map
        (fun m => normalize_name m p.naming)).toFinset)

/-- The `all_methods` table built by `main`
(scripts/audit_api_surface.py lines 103–107). -/
def modeA_methods (ps : List AProfile) : List (String × Finset String) :=
  ps.map (fun p => (p.lang, (extract_methods p).2))

/-- `expected_methods` (scripts/audit_api_surface.py lines 113–115): the
running union over all languages' method sets. -/
def modeA_expected (ms : List (String × Finset String)) : Finset String :=
  ms.foldl (fun acc m => acc ∪ m.2) ∅

/-- One language's missing set (scripts/audit_api_surface.py line 125). -/
def modeA_missing (ms : List (String × Finset String)) (s : Finset String) :
    Finset String :=
  modeA_expected ms \ s

/-- The verdict of `main` (scripts/audit_api_surface.py lines 121–149):
`has_issues` is set exactly when some language's missing set is
non-empty.  (The source iterates languages in sorted order; the order
does not affect whether any missing set is non-empty.) -/
def modeA_exit (ms : List (String × Finset String)) : Nat :=
  if ms.any (fun m => ¬ (modeA_expected ms \ m.2) = ∅) then 1 else 0

/-- The whole Mode A run: extraction for every profile (fatal for none of
them), then the per-language report rows
`(language, warned, methods, missing)` and the exit status. -/
def modeA_run (ps : List AProfile) :
    Nat × List (String × Bool × Finset String × Finset String) :=
  let ms := modeA_methods ps
  (modeA_exit ms,
    ps.map (fun p =>
      (p.lang, (extract_methods p).1, (extract_methods p).2,
        modeA_expected ms \ (extract_methods p).2)))

theorem mem_modeA_expected (ms : List (String × Finset String)) (k : String) :
    k ∈ modeA_expected ms ↔ ∃ m ∈ ms, k ∈ m.2 := by
  suffices h : ∀ acc : Finset String,
      (k ∈ ms.foldl (fun acc m => acc ∪ m.2) acc ↔ k ∈ acc ∨ ∃ m ∈ ms, k ∈ m.2) by
    simpa [modeA_expected] using h ∅
  induction ms with
  | nil => simp
  | cons m rest ih =>
    intro acc
    simp only [List.foldl_cons, ih, Finset.mem_union, List.mem_cons]
    constructor
    · rintro (⟨hm | hm⟩ | ⟨m', hm', hk⟩)
      · exact Or.inl hm
      · exact Or.inr ⟨m, Or.inl rfl, hm⟩
      · exact Or.inr ⟨m', Or.inr hm', hk⟩
    · rintro (hm | ⟨m', hm' | hm', hk⟩)
      · exact Or.inl (Or.inl hm)
      · exact Or.inl (Or.inr (hm' ▸ hk))
      · exact Or.inr ⟨m', hm', hk⟩

/-! ### Mode B extraction: `extract_js_methods`
(scripts/check_api_compatibility.py lines 16–45)

The three declaration patterns are embedded as deterministic matchers.
Greedy `\w+`/`\s*` runs need no backtracking here: shortening a maximal
`\w+` run leaves a word character where the following `\s*`-then-literal
must match, which always fails, so the maximal-run scan is exact. -/

/-- Match a literal string, returning the rest. -/
def dropLit : List Char → List Char → Option (List Char)
  | [], l => some l
  | _ :: _, [] => none
  | c :: cs, d :: ds => if d = c then dropLit cs ds else none

/-- The lazy group-and-close `(.*?)\)` at the end of patterns 1 and 2:
the group is the run up to the first `)`; `.` does not match a newline,
so a newline before the first `)` fails the match. -/
def lazyParen (l : List Char) : Option (List Char × List Char) :=
  let ps := l.takeWhile (fun c => ¬ c = ')')
  if ps.contains '\n' then none
  else
    match l.dropWhile (fun c => ¬ c = ')') with
    | ')' :: r => some (ps, r)
    | _ => none

/-- The tail `(.*?)\)\s*\x7b` of pattern 3.  When the `\s*\x7b` after a
candidate `)` fails, the lazy group extends past that `)` and the scan
resumes at the next `)`; a newline inside the group fails the match.
`acc` holds the group read so far, reversed. -/
def p3Close : List Char → List Char → Option (List Char × List Char)
  | _, [] => none
  | acc, c :: rest =>
    if c = '\n' then none
    else if c = ')' then
      match (rest.dropWhile isPySpace) with
      | '\x7b' :: r2 => some (acc.reverse, r2)
      | _ => p3Close (')' :: acc) rest
    else p3Close (c :: acc) rest

/-- Pattern 1, `async\s+(\w+)\s*\((.*?)\)`
(scripts/check_api_compatibility.py line 27). -/
def matchP1 (l : List Char) : Option (String × String × List Char) :=
  match dropLit "async".data l with
  | none => none
  | some r1 =>
    if (r1.takeWhile isPySpace).length = 0 then none
    else
      let r2 := r1.dropWhile isPySpace
      let nm := r2.takeWhile isWordChar
      if nm.length = 0 then none
      else
        match (r2.dropWhile isWordChar).dropWhile isPySpace with
        | '(' :: r3 =>
          match lazyParen r3 with
          | some (ps, r4) => some (String.mk nm, String.mk ps, r4)
          | none => none
        | _ => none

/-- Pattern 2, `(\w+)\s*:\s*async\s+function\s*\((.*?)\)`
(scripts/check_api_compatibility.py line 28). -/
def matchP2 (l : List Char) : Option (String × String × List Char) :=
  let nm := l.takeWhile isWordChar
  if nm.length = 0 then none
  else
    match (l.dropWhile isWordChar).dropWhile isPySpace with
    | ':' :: r1 =>
      match dropLit "async".data (r1.dropWhile isPySpace) with
      | none => none
      | some r2 =>
        if (r2.takeWhile isPySpace).length = 0 then none
        else
          match dropLit "function".data (r2.dropWhile isPySpace) with
          | none => none
          | some r3 =>
            match r3.dropWhile isPySpace with
            | '(' :: r4 =>
              match lazyParen r4 with
              | some (ps, r5) => some (String.mk nm, String.mk ps, r5)
              | none => none
            | _ => none
    | _ => none

/-- Pattern 3, `(\w+)\s*\((.*?)\)\s*\x7b`
(scripts/check_api_compatibility.py line 29). -/
def matchP3 (l : List Char) : Option (String × String × List Char) :=
  let nm := l.takeWhile isWordChar
  if nm.length = 0 then none
  else
    match (l.dropWhile isWordChar).dropWhile isPySpace with
    | '(' :: r1 =>
      match p3Close [] r1 with
      | some (ps, r2) => some (String.mk nm, String.mk ps, r2)
      | none => none
    | _ => none

/-- `re.finditer`: scan start positions left to right; at a match record
the captures and resume after the match, otherwise advance one
character.  Every pattern here consumes at least one character per match,
so fuel equal to the text length suffices. -/
def finditerAux (m : List Char → Option (String × String × List Char)) :
    Nat → List Char → List (String × String)
  | 0, _ => []
  | _, [] => []
  | fuel + 1, c :: rest =>
    match m (c :: rest) with
    | some (nm, ps, r) => (nm, ps) :: finditerAux m fuel r
    | none => finditerAux m fuel rest

def finditer (m : List Char → Option (String × String × List Char))
    (l : List Char) : List (String × String) :=
  finditerAux m l.length l

/-- The filter of `extract_js_methods` (lines 37–39): constructors and
private methods are skipped. -/
def jsGuardOk (n : String) : Bool :=
  ¬ n = "constructor" && ¬ n = "__init__" && ¬ startsUnderscore n

/-- The per-match body of `extract_js_methods` (lines 33–43): skip
guarded names, strip the captured parameter text, and append it to the
name's overload list. -/
def foldJsMatches (ms : List (String × String))
    (d : List (String × List String)) : List (String × List String) :=
  ms.foldl (fun d p => if jsGuardOk p.1 then dictAppend p.1 (stripStr p.2) d else d) d

/-- `extract_js_methods` (scripts/check_api_compatibility.py lines
16–45): the three patterns are each run over the whole text in turn, all
feeding the same method dict. -/
def extract_js_methods (content : String) : List (String × List String) :=
  foldJsMatches (finditer matchP3 content.data)
    (foldJsMatches (finditer matchP2 content.data)
      (foldJsMatches (finditer matchP1 content.data) []))

/-- `extract_python_methods` (scripts/check_api_compatibility.py lines
47–67), with the `re.finditer` scan of
`def\s+(\w+)\s*\(self(?:,\s*(.*?))?\)\s*(?:->.*?)?:` modelled as the
ordered list of `(name, params)` captures, the empty string standing for
an absent or empty second group (`match.group(2) if match.group(2) else
""`).  Names starting with an underscore are skipped; each kept capture's
stripped parameter text is appended to the name's overload list. -/
def extract_python_methods (captures : List (String × String)) :
    List (String × List String) :=
  captures.foldl
    (fun d p => if ¬ startsUnderscore p.1 then dictAppend p.1 (stripStr p.2) d else d) []

/-! ### Supporting lemmas for the claim theorems -/

theorem dkeys_dictAppend (k v : String) (d : List (String × List String)) :
    dkeys (dictAppend k v d) = if k ∈ dkeys d then dkeys d else dkeys d ++ [k] := by
  induction d with
  | nil => simp [dictAppend]
  | cons p rest ih =>
    obtain ⟨k', vs⟩ := p
    by_cases h : k' = k
    · subst h
      simp [dictAppend]
    · have hne : ¬ k = k' := fun hk => h hk.symm
      simp only [dictAppend, if_neg h, dkeys_cons]
      rw [ih]
      by_cases hm : k ∈ dkeys rest
      · simp [hm, hne]
      · simp [hm, hne]

/-- The key set of the expected dict: every key is the normalization of
some raw name of the input (plus whatever the accumulator held). -/
theorem mem_dkeys_expectedPy_aux (js : List (String × List String))
    (d : List (String × List String)) (k : String)
    (h : k ∈ dkeys (js.foldl (fun d p => dictInsert (js_to_python_name p.1) p.2 d) d)) :
    k ∈ dkeys d ∨ ∃ p ∈ js, js_to_python_name p.1 = k := by
  induction js generalizing d with
  | nil => exact Or.inl h
  | cons q rest ih =>
    simp only [List.foldl_cons] at h
    rcases ih _ h with hd | ⟨p, hp, hk⟩
    · rw [dkeys_dictInsert] at hd
      by_cases hm : js_to_python_name q.1 ∈ dkeys d
      · rw [if_pos hm] at hd
        exact Or.inl hd
      · rw [if_neg hm] at hd
        rcases List.mem_append.mp hd with hd | hd
        · exact Or.inl hd
        · exact Or.inr ⟨q, List.mem_cons_self _ _, (List.mem_singleton.mp hd).symm⟩
    · exact Or.inr ⟨p, List.mem_cons_of_mem _ hp, hk⟩

theorem mem_dkeys_expectedPy (js : List (String × List String)) (k : String)
    (h : k ∈ dkeys (expectedPy js)) : ∃ p ∈ js, js_to_python_name p.1 = k := by
  rcases mem_dkeys_expectedPy_aux js [] k h with hd | hp
  · simp at hd
  · exact hp

theorem dkeys_expectedPy_nodup (js : List (String × List String)) :
    (dkeys (expectedPy js)).Nodup := by
  suffices h : ∀ d : List (String × List String), (dkeys d).Nodup →
      (dkeys (js.foldl (fun d p => dictInsert (js_to_python_name p.1) p.2 d) d)).Nodup by
    simpa [expectedPy] using h [] (by simp)
  induction js with
  | nil => exact fun d hd => hd
  | cons q rest ih =>
    intro d hd
    simpa using ih _ (dkeys_nodup_dictInsert _ _ _ hd)

/-- Keys of the dict built by the `extract_js_methods` match loop: either
already present, or the name of a match that passed the
constructor/private filter. -/
theorem mem_dkeys_foldJsMatches (ms : List (String × String))
    (d : List (String × List String)) (k : String)
    (h : k ∈ dkeys (foldJsMatches ms d)) :
    k ∈ dkeys d ∨ (jsGuardOk k = true ∧ ∃ p ∈ ms, p.1 = k) := by
  induction ms generalizing d with
  | nil => exact Or.inl h
  | cons q rest ih =>
    simp only [foldJsMatches, List.foldl_cons] at h
    rcases ih _ (by simpa [foldJsMatches] using h) with hd | ⟨hg, p, hp, hk⟩
    · by_cases hq : jsGuardOk q.1 = true
      · rw [if_pos hq, dkeys_dictAppend] at hd
        by_cases hm : q.1 ∈ dkeys d
        · rw [if_pos hm] at hd
          exact Or.inl hd
        · rw [if_neg hm] at hd
          rcases List.mem_append.mp hd with hd | hd
          · exact Or.inl hd
          · rcases List.mem_singleton.mp hd with rfl
            exact Or.inr ⟨hq, q, List.mem_cons_self _ _, rfl⟩
      · rw [if_neg hq] at hd
        exact Or.inl hd
    · exact Or.inr ⟨hg, p, List.mem_cons_of_mem _ hp, hk⟩

theorem extract_js_methods_guard (content : String) (k : String)
    (h : k ∈ dkeys (extract_js_methods content)) : jsGuardOk k = true := by
  unfold extract_js_methods at h
  rcases mem_dkeys_foldJsMatches _ _ _ h with h | ⟨hg, _⟩
  · rcases mem_dkeys_foldJsMatches _ _ _ h with h | ⟨hg, _⟩
    · rcases mem_dkeys_foldJsMatches _ _ _ h with h | ⟨hg, _⟩
      · simp at h
      · exact hg
    · exact hg
  · exact hg

theorem mem_dkeys_extract_python_methods (captures : List (String × String))
    (k : String) (h : k ∈ dkeys (extract_python_methods captures)) :
    startsUnderscore k = false ∧ ∃ p ∈ captures, p.1 = k := by
  suffices haux : ∀ d : List (String × List String),
      k ∈ dkeys (captures.foldl
        (fun d p => if ¬ startsUnderscore p.1 then dictAppend p.1 (stripStr p.2) d else d) d) →
      k ∈ dkeys d ∨ (startsUnderscore k = false ∧ ∃ p ∈ captures, p.1 = k) by
    rcases haux [] (by simpa [extract_python_methods] using h) with hd | hp
    · simp at hd
    · exact hp
  clear h
  induction captures with
  | nil => exact fun d h => Or.inl h
  | cons q rest ih =>
    intro d h
    simp only [List.foldl_cons] at h
    rcases ih _ h with hd | ⟨hs, p, hp, hk⟩
    · by_cases hq : startsUnderscore q.1 = false
      · rw [if_pos (by simp [hq]), dkeys_dictAppend] at hd
        by_cases hm : q.1 ∈ dkeys d
        · rw [if_pos hm] at hd
          exact Or.inl hd
        · rw [if_neg hm] at hd
          rcases List.mem_append.mp hd with hd | hd
          · exact Or.inl hd
          · rcases List.mem_singleton.mp hd with rfl
            exact Or.inr ⟨hq, q, List.mem_cons_self _ _, rfl⟩
      · rw [if_neg (by simpa using hq)] at hd
        exact Or.inl hd
    · exact Or.inr ⟨hs, p, List.mem_cons_of_mem _ hp, hk⟩

/-- Characterization of the mismatch list of `compare_apis`. -/
theorem mem_mismatches_iff (js py : List (String × List String))
    (k : String) (x y : Nat) :
    (k, x, y) ∈ (compare_apis js py).mismatches ↔
      ∃ la lb a b, dlookup k (expectedPy js) = some la ∧ dlookup k py = some lb ∧
        a ∈ la ∧ b ∈ lb ∧ jsParamCount a ≠ pyParamCount b ∧
        x = jsParamCount a ∧ y = pyParamCount b := by
  unfold compare_apis
  simp only [List.mem_flatMap]
  constructor
  · rintro ⟨⟨k', la⟩, hmem, hin⟩
    rcases hl : dlookup k' py with _ | lb
    · rw [hl] at hin
      simp at hin
    · rw [hl] at hin
      unfold pairMismatches at hin
      rcases List.mem_flatMap.mp hin with ⟨a, ha, hfa⟩
      rcases List.mem_filterMap.mp hfa with ⟨b, hb, heq⟩
      by_cases hne : jsParamCount a ≠ pyParamCount b
      · rw [if_pos hne] at heq
        injection heq with h1
        injection h1 with hk h2
        injection h2 with hx hy
        subst hk
        exact ⟨la, lb, a, b,
          dlookup_eq_some_of_mem _ _ _ (dkeys_expectedPy_nodup js) hmem, hl,
          ha, hb, hne, hx.symm, hy.symm⟩
      · rw [if_neg hne] at heq
        exact absurd heq (by simp)
  · rintro ⟨la, lb, a, b, hla, hlb, ha, hb, hne, rfl, rfl⟩
    refine ⟨(k, la), mem_of_dlookup_eq_some _ _ _ hla, ?_⟩
    rw [hlb]
    unfold pairMismatches
    exact List.mem_flatMap.mpr ⟨a, ha,
      List.mem_filterMap.mpr ⟨b, hb, by rw [if_pos hne]⟩⟩

theorem compare_missing_def (js py : List (String × List String)) :
    (compare_apis js py).missing =
      ((dkeys (expectedPy js)).filter
        (fun k => ¬ k ∈ dkeys py)).insertionSort (· ≤ ·) := rfl

theorem compare_extra_def (js py : List (String × List String)) :
    (compare_apis js py).extra =
      ((dkeys py).filter
        (fun k => ¬ k ∈ dkeys (expectedPy js))).insertionSort (· ≤ ·) := rfl

theorem missing_eq_nil_iff (js py : List (String × List String)) :
    (compare_apis js py).missing = [] ↔
      ((dkeys (expectedPy js)).filter (fun k => ¬ k ∈ dkeys py)) = [] := by
  rw [compare_missing_def]
  constructor
  · intro h
    have hp := List.perm_insertionSort (· ≤ ·)
      ((dkeys (expectedPy js)).filter (fun k => ¬ k ∈ dkeys py))
    rw [h] at hp
    exact hp.symm.eq_nil
  · intro h
    rw [h]
    rfl

theorem mem_missing_iff (js py : List (String × List String)) (k : String) :
    k ∈ (compare_apis js py).missing ↔
      k ∈ dkeys (expectedPy js) ∧ ¬ k ∈ dkeys py := by
  rw [compare_missing_def, (List.perm_insertionSort (· ≤ ·) _).mem_iff,
    List.mem_filter]
  simp

theorem mem_extra_iff (js py : List (String × List String)) (k : String) :
    k ∈ (compare_apis js py).extra ↔
      k ∈ dkeys py ∧ ¬ k ∈ dkeys (expectedPy js) := by
  rw [compare_extra_def, (List.perm_insertionSort (· ≤ ·) _).mem_iff,
    List.mem_filter]
  simp

/-! Parser lemmas for whitespace-only inputs. -/

theorem splitCommas_no_comma (l : List Char) (h : ∀ c ∈ l, ¬ c = ',') :
    splitCommas l = [l] := by
  induction l with
  | nil => rfl
  | cons c rest ih =>
    rw [splitCommas, if_neg (h c (List.mem_cons_self _ _)),
      ih (fun d hd => h d (List.mem_cons_of_mem _ hd))]

theorem stripChars_all_space (l : List Char) (h : ∀ c ∈ l, isPySpace c = true) :
    stripChars l = [] := by
  unfold stripChars
  rw [List.dropWhile_eq_nil_iff.mpr h]
  simp

theorem stripHintsAux_no_colon (fuel : Nat) (l : List Char)
    (h : ∀ c ∈ l, ¬ c = ':') : stripHintsAux fuel l = l := by
  induction fuel generalizing l with
  | zero => cases l <;> rfl
  | succ fuel ih =>
    cases l with
    | nil => rfl
    | cons c rest =>
      rw [stripHintsAux, if_neg (h c (List.mem_cons_self _ _)),
        ih rest (fun d hd => h d (List.mem_cons_of_mem _ hd))]

theorem stripHints_no_colon (l : List Char) (h : ∀ c ∈ l, ¬ c = ':') :
    stripHints l = l :=
  stripHintsAux_no_colon _ _ h

theorem isPySpace_ne_comma (c : Char) (h : isPySpace c = true) : ¬ c = ',' := by
  intro hc
  subst hc
  exact absurd h (by decide)

theorem isPySpace_ne_colon (c : Char) (h : isPySpace c = true) : ¬ c = ':' := by
  intro hc
  subst hc
  exact absurd h (by decide)

theorem modeB_exit_eq_one_iff (js py : List (String × List String)) :
    modeB_exit js py = 1 ↔
      (¬ (compare_apis js py).missing = [] ∨
        ¬ (compare_apis js py).mismatches = []) := by
  unfold modeB_exit modeB_has_issues
  by_cases h1 : (compare_apis js py).missing = []
  · by_cases h2 : (compare_apis js py).mismatches = []
    · simp [h1, h2]
    · simp [h1, h2]
  · simp [h1]

theorem mismatches_ne_nil_iff (js py : List (String × List String)) :
    ¬ (compare_apis js py).mismatches = [] ↔
      ∃ k la lb a b, dlookup k (expectedPy js) = some la ∧ dlookup k py = some lb ∧
        a ∈ la ∧ b ∈ lb ∧ jsParamCount a ≠ pyParamCount b := by
  constructor
  · intro h
    rcases List.exists_mem_of_ne_nil _ h with ⟨⟨k, x, y⟩, hm⟩
    rcases (mem_mismatches_iff js py k x y).mp hm with
      ⟨la, lb, a, b, h1, h2, h3, h4, h5, _, _⟩
    exact ⟨k, la, lb, a, b, h1, h2, h3, h4, h5⟩
  · rintro ⟨k, la, lb, a, b, h1, h2, h3, h4, h5⟩
    exact List.ne_nil_of_mem ((mem_mismatches_iff js py k _ _).mpr
      ⟨la, lb, a, b, h1, h2, h3, h4, h5, rfl, rfl⟩)

theorem mem_dkeys_of_dlookup {α : Type} (k : String) (v : α)
    (d : List (String × α)) (h : dlookup k d = some v) : k ∈ dkeys d :=
  List.mem_map.mpr ⟨(k, v), mem_of_dlookup_eq_some _ _ _ h, rfl⟩

/-! ## Claim theorems -/

/-- C3 (counterexample): the claim that the parser splits on top-level
commas only is false of the code — the comma nested inside the square
brackets of `a[b,c]` does produce a split, so the code counts 2
parameters where a top-level split yields 1. -/
theorem C3_counterexample :
    jsParamCount "a[b,c]" = 2 ∧ specTopLevelArity "a[b,c]" = 1 ∧
      ¬ jsParamCount "a[b,c]" = specTopLevelArity "a[b,c]" := by
  decide

/-- C3 (amended): the parser splits on every comma regardless of bracket
nesting; each piece counts when it is non-blank after stripping, the
target side removing colon-introduced type annotations (up to the next
comma or equals sign) first.  An empty or whitespace-only input yields
zero parameters, and annotation/default noise without nested commas does
not change the count (`"a, b: SomeType, c=1"` counts 3 on both sides) —
but a bracket-nested comma does split (`"a: Dict[int, str]"` counts 2
where the spec's top-level split yields 1). -/
theorem C3_naive_comma_split :
    (∀ s : String, s.data.all isPySpace = true →
      jsParamCount s = 0 ∧ pyParamCount s = 0)
    ∧ jsParamCount "a, b: SomeType, c=1" = 3
    ∧ pyParamCount "a, b: SomeType, c=1" = 3
    ∧ jsParamCount "" = 0 ∧ pyParamCount "" = 0
    ∧ pyParamCount "a: Dict[int, str]" = 2
    ∧ specTopLevelArity "a: Dict[int, str]" = 1 := by
  refine ⟨?_, by decide, by decide, by decide, by decide, by decide, by decide⟩
  intro s hs
  rw [List.all_eq_true] at hs
  have hblank : countNonBlank [s.data] = 0 := by
    unfold countNonBlank
    simp [List.filter, stripChars_all_space s.data hs]
  constructor
  · unfold jsParamCount
    by_cases hnil : s.data = []
    · rw [if_pos hnil]
    · rw [if_neg hnil,
        splitCommas_no_comma s.data (fun c hc => isPySpace_ne_comma c (hs c hc)),
        hblank]
  · unfold pyParamCount
    rw [stripHints_no_colon s.data (fun c hc => isPySpace_ne_colon c (hs c hc))]
    by_cases hnil : s.data = []
    · rw [if_pos hnil]
    · rw [if_neg hnil,
        splitCommas_no_comma s.data (fun c hc => isPySpace_ne_comma c (hs c hc)),
        hblank]

/-- C3 (witness). -/
theorem C3_naive_comma_split_witness :
    (("" : String).data.all isPySpace = true) ∧
      jsParamCount "" = 0 ∧ pyParamCount "" = 0 :=
  ⟨by decide, C3_naive_comma_split.1 "" (by decide)⟩

/-- C4 (counterexample): in reference-compatibility mode an unavailable
reference file is fatal, not non-fatal — `main` returns exit status 1
immediately and no comparison report is produced, even though the target
is available. -/
theorem C4_counterexample :
    modeB_main none (some [("foo", ["a"])]) = (1, none) ∧
      (modeB_main none (some [("foo", ["a"])])).2 = none := by
  exact ⟨rfl, rfl⟩

/-- C4 (amended): in surface-audit mode an unavailable source is
non-fatal — the language contributes an empty operation set, the warning
flag is recorded, and the run still produces a report row for every
configured language; in reference-compatibility mode an unavailable
reference or target file aborts the run with exit status 1 and no
report. -/
theorem C4_unavailable_source :
    (∀ p : AProfile, p.source = none → extract_methods p = (true, ∅))
    ∧ (∀ ps : List AProfile,
        (modeA_run ps).2.map (fun row => row.1) = ps.map AProfile.lang)
    ∧ (∀ py, modeB_main none py = (1, none))
    ∧ (∀ js, modeB_main (some js) none = (1, none)) := by
  refine ⟨?_, ?_, fun py => rfl, fun js => rfl⟩
  · intro p hp
    unfold extract_methods
    rw [hp]
  · intro ps
    simp [modeA_run]

/-- C4 (witness). -/
theorem C4_unavailable_source_witness :
    (AProfile.mk "python" none [] "snake_case").source = none ∧
      extract_methods (AProfile.mk "python" none [] "snake_case") = (true, ∅) :=
  ⟨rfl, C4_unavailable_source.1 _ rfl⟩

/-- C5 (confirmed): extra keys are informational only — the exit status
of the comparison is a function of `missing` and `mismatches` alone, a
run whose `missing` and `mismatches` are both empty exits 0 whatever
`extra` holds, and a concrete run whose only finding is an extra key
exits 0. -/
theorem C5_extra_informational :
    (∀ js py js' py',
        (compare_apis js py).missing = (compare_apis js' py').missing →
        (compare_apis js py).mismatches = (compare_apis js' py').mismatches →
        modeB_exit js py = modeB_exit js' py')
    ∧ (∀ js py, (compare_apis js py).missing = [] →
        (compare_apis js py).mismatches = [] → modeB_exit js py = 0)
    ∧ ((compare_apis [] [("extra_method", ["a"])]).extra = ["extra_method"]
        ∧ modeB_exit [] [("extra_method", ["a"])] = 0) := by
  refine ⟨?_, ?_, by decide, by decide⟩
  · intro js py js' py' h1 h2
    unfold modeB_exit modeB_has_issues
    rw [h1, h2]
  · intro js py h1 h2
    unfold modeB_exit modeB_has_issues
    rw [h1, h2]
    simp

/-- C5 (witness). -/
theorem C5_extra_informational_witness :
    (compare_apis [] [("extra_method", ["a"])]).missing = [] ∧
      (compare_apis [] [("extra_method", ["a"])]).mismatches = [] ∧
      modeB_exit [] [("extra_method", ["a"])] = 0 :=
  ⟨by decide, by decide,
    C5_extra_informational.2.1 _ _ (by decide) (by decide)⟩

/-- C6 (confirmed): name normalization is idempotent for every raw name
and every naming convention tag, in both scripts' implementations. -/
theorem C6_normalize_idempotent :
    (∀ (x c : String), normalize_name (normalize_name x c) c = normalize_name x c)
    ∧ (∀ x : String, js_to_python_name (js_to_python_name x) = js_to_python_name x) := by
  refine ⟨?_, js_to_python_name_idem⟩
  intro x c
  by_cases h1 : c = "snake_case"
  · simp [normalize_name, h1]
  · by_cases h2 : c = "camelCase" ∨ c = "PascalCase"
    · simp [normalize_name, h1, h2, js_to_python_name_idem]
    · simp [normalize_name, h1, h2]

/-- C8 (confirmed): the snake-style branch returns the name unchanged,
the camel-style and capitalized-camel-style branches implement exactly
the spec's rule — a separator before every uppercase letter immediately
preceded by a lowercase letter or digit, then lowercase — and the three
specified examples evaluate as stated. -/
theorem C8_convention_mapping :
    (∀ s : String, normalize_name s "snake_case" = s)
    ∧ (∀ (s c : String), c = "camelCase" ∨ c = "PascalCase" →
        normalize_name s c = specNormalize s)
    ∧ normalize_name "getWallet" "camelCase" = "get_wallet"
    ∧ normalize_name "get_wallet" "snake_case" = "get_wallet"
    ∧ normalize_name "GetWallet" "PascalCase" = "get_wallet" := by
  refine ⟨fun s => by simp [normalize_name], ?_, by decide, by decide, by decide⟩
  intro s c hc
  have hns : ¬ c = "snake_case" := by
    rcases hc with rfl | rfl <;> decide
  unfold normalize_name
  rw [if_neg hns, if_pos hc]
  unfold js_to_python_name specNormalize
  rw [camelSub_eq_specInsert]

/-- C8 (witness). -/
theorem C8_convention_mapping_witness :
    ("camelCase" = "camelCase" ∨ "camelCase" = "PascalCase") ∧
      normalize_name "getWallet" "camelCase" = specNormalize "getWallet" :=
  ⟨Or.inl rfl, C8_convention_mapping.2.1 "getWallet" "camelCase" (Or.inl rfl)⟩

/-- C9 (confirmed): under the dict comprehension of `compare_apis`, a
key maps to the parameter lists of the **last** raw name (in extraction
order) normalizing to it; occurrences of earlier colliding raw names are
dropped, not merged.  Concretely, with `fooBar` before `FooBar`, only
`FooBar`'s two occurrences survive under `foo_bar`. -/
theorem C9_last_raw_name_wins :
    (∀ (js : List (String × List String)) (k : String),
      dlookup k (expectedPy js) =
        ((js.filter (fun p => js_to_python_name p.1 == k)).getLast?).map Prod.snd)
    ∧ dlookup "foo_bar" (expectedPy [("fooBar", ["a"]), ("FooBar", ["x", "y"])])
        = some ["x", "y"] := by
  refine ⟨?_, by decide⟩
  intro js k
  induction js using List.reverseRecOn with
  | nil => simp [expectedPy, dlookup]
  | append_singleton js p ih =>
    obtain ⟨n, ps⟩ := p
    have hexp : expectedPy (js ++ [(n, ps)])
        = dictInsert (js_to_python_name n) ps (expectedPy js) := by
      simp [expectedPy, List.foldl_append]
    by_cases h : js_to_python_name n = k
    · rw [hexp, h, dlookup_dictInsert_self, List.filter_append]
      have hsing : List.filter (fun p => js_to_python_name p.1 == k) [(n, ps)]
          = [(n, ps)] := by simp [h]
      rw [hsing, List.getLast?_concat]
      rfl
    · rw [hexp, dlookup_dictInsert_ne _ _ _ _ h, List.filter_append]
      have hsing : List.filter (fun p => js_to_python_name p.1 == k) [(n, ps)]
          = [] := by simp [h]
      rw [hsing, List.append_nil]
      exact ih

/-- C10 (confirmed): the three declaration patterns are applied
independently over the whole reference text, so the single declaration
`async foo(a) \x7b` matches both the `async`-method pattern and the
plain-method pattern; its parameter list is recorded twice under `foo`,
and comparing against a target `foo(x, y)` yields the same arity
mismatch twice. -/
theorem C10_double_counting :
    extract_js_methods "async foo(a) \x7b" = [("foo", ["a", "a"])] ∧
      (compare_apis (extract_js_methods "async foo(a) \x7b")
        [("foo", ["x, y"])]).mismatches
        = [("foo", 1, 2), ("foo", 1, 2)] := by
  decide

/-- C1 (confirmed): in reference-compatibility mode, for every key
recorded in both the expected (canonical) and target dicts, every pair
of recorded occurrences whose token counts differ appears as a mismatch
`(key, canonicalArity, targetArity)`; and the exit status is 1 exactly
when the missing list is non-empty or some such pair exists. -/
theorem C1_pairwise_mismatches_and_verdict :
    (∀ (js py : List (String × List String)) (k : String)
        (la lb : List String) (a b : String),
      dlookup k (expectedPy js) = some la → dlookup k py = some lb →
      a ∈ la → b ∈ lb → jsParamCount a ≠ pyParamCount b →
      (k, jsParamCount a, pyParamCount b) ∈ (compare_apis js py).mismatches)
    ∧ (∀ js py, modeB_exit js py = 1 ↔
        (¬ (compare_apis js py).missing = [] ∨
          ∃ k la lb a b,
            dlookup k (expectedPy js) = some la ∧ dlookup k py = some lb ∧
              a ∈ la ∧ b ∈ lb ∧ jsParamCount a ≠ pyParamCount b)) := by
  constructor
  · intro js py k la lb a b hla hlb ha hb hne
    exact (mem_mismatches_iff js py k _ _).mpr
      ⟨la, lb, a, b, hla, hlb, ha, hb, hne, rfl, rfl⟩
  · intro js py
    rw [modeB_exit_eq_one_iff, mismatches_ne_nil_iff]

/-- C1 (witness). -/
theorem C1_pairwise_mismatches_and_verdict_witness :
    (dlookup "get_wallet" (expectedPy [("getWallet", ["a, b"])]) = some ["a, b"]
      ∧ dlookup "get_wallet" [("get_wallet", ["a"])] = some ["a"]
      ∧ jsParamCount "a, b" ≠ pyParamCount "a")
    ∧ ("get_wallet", jsParamCount "a, b", pyParamCount "a") ∈
        (compare_apis [("getWallet", ["a, b"])] [("get_wallet", ["a"])]).mismatches :=
  ⟨⟨by decide, by decide, by decide⟩,
    C1_pairwise_mismatches_and_verdict.1 [("getWallet", ["a, b"])]
      [("get_wallet", ["a"])] "get_wallet" ["a, b"] ["a"] "a, b" "a"
      (by decide) (by decide) (by decide) (by decide) (by decide)⟩

/-- C2 (confirmed): in surface-audit mode the expected surface is the
union of all languages' normalized key sets, each language's missing set
is the expected surface minus its own keys, the exit status is 1 exactly
when some language's missing set is non-empty and 0 otherwise, and the
spec's concrete three-profile example evaluates as stated (verdict
FAIL). -/
theorem C2_surface_audit :
    (∀ (ms : List (String × Finset String)) (k : String),
      k ∈ modeA_expected ms ↔ ∃ m ∈ ms, k ∈ m.2)
    ∧ (∀ ms : List (String × Finset String),
        (modeA_exit ms = 1 ↔ ∃ m ∈ ms, ¬ modeA_missing ms m.2 = ∅)
        ∧ (modeA_exit ms = 0 ↔ ¬ ∃ m ∈ ms, ¬ modeA_missing ms m.2 = ∅))
    ∧ (modeA_expected
          [("A", {"foo", "bar"}), ("B", {"foo"}), ("C", {"foo", "bar", "baz"})]
          = {"foo", "bar", "baz"}
        ∧ modeA_missing
            [("A", {"foo", "bar"}), ("B", {"foo"}), ("C", {"foo", "bar", "baz"})]
            {"foo", "bar"} = {"baz"}
        ∧ modeA_missing
            [("A", {"foo", "bar"}), ("B", {"foo"}), ("C", {"foo", "bar", "baz"})]
            {"foo"} = {"bar", "baz"}
        ∧ modeA_missing
            [("A", {"foo", "bar"}), ("B", {"foo"}), ("C", {"foo", "bar", "baz"})]
            {"foo", "bar", "baz"} = ∅
        ∧ modeA_exit
            [("A", {"foo", "bar"}), ("B", {"foo"}), ("C", {"foo", "bar", "baz"})]
            = 1) := by
  refine ⟨mem_modeA_expected, ?_, by decide, by decide, by decide, by decide, by decide⟩
  intro ms
  have hiff : modeA_exit ms = 1 ↔ ∃ m ∈ ms, ¬ modeA_missing ms m.2 = ∅ := by
    unfold modeA_exit modeA_missing
    by_cases h : ms.any (fun m => ¬ (modeA_expected ms \ m.2) = ∅) = true
    · rw [if_pos h]
      simp only [List.any_eq_true, decide_eq_true_eq] at h
      exact iff_of_true rfl h
    · rw [if_neg h]
      simp only [List.any_eq_true, decide_eq_true_eq] at h
      exact iff_of_false (by omega) h
  refine ⟨hiff, ?_⟩
  constructor
  · intro h0
    intro hex
    have h1 : modeA_exit ms = 1 := hiff.mpr hex
    omega
  · intro hnex
    unfold modeA_exit
    rw [if_neg ?_]
    intro hany
    simp only [List.any_eq_true, decide_eq_true_eq] at hany
    exact hnex (by
      rcases hany with ⟨m, hm, hne⟩
      exact ⟨m, hm, by simpa [modeA_missing] using hne⟩)

/-- C7 (confirmed): excluded names and private-marker names are filtered
during extraction, before normalization or comparison, so a key can only
appear in a missing list (Mode A), or in the missing/extra/mismatch
lists (Mode B), when some filter-passing raw name produced it: in Mode A
a candidate that is neither excluded nor underscore-prefixed whose
normalization is the key, and in Mode B a guard-passing extracted JS name
normalizing to the key or a non-underscore Python capture equal to it.
In particular a name in a profile's excluded set that no passing
candidate maps onto never appears in any list. -/
theorem C7_excluded_never_reported :
    (∀ (ps : List AProfile) (s : Finset String) (k : String),
      k ∈ modeA_missing (modeA_methods ps) s →
      ∃ Q ∈ ps, ∃ cands, Q.source = some cands ∧
        ∃ r ∈ cands, (¬ r ∈ Q.exclude ∧ startsUnderscore r = false) ∧
          normalize_name r Q.naming = k)
    ∧ (∀ (content : String) (captures : List (String × String)) (k : String),
        (k ∈ (compare_apis (extract_js_methods content)
                (extract_python_methods captures)).missing
          ∨ k ∈ (compare_apis (extract_js_methods content)
                  (extract_python_methods captures)).extra
          ∨ ∃ x y, (k, x, y) ∈ (compare_apis (extract_js_methods content)
                  (extract_python_methods captures)).mismatches) →
        (∃ r ∈ dkeys (extract_js_methods content),
            jsGuardOk r = true ∧ js_to_python_name r = k)
          ∨ ∃ c ∈ captures, startsUnderscore c.1 = false ∧ c.1 = k) := by
  constructor
  · intro ps s k hk
    have hexp : k ∈ modeA_expected (modeA_methods ps) :=
      (Finset.mem_sdiff.mp hk).1
    rcases (mem_modeA_expected _ k).mp hexp with ⟨m, hm, hkm⟩
    rcases List.mem_map.mp hm with ⟨Q, hQ, rfl⟩
    rcases hsrc : Q.source with _ | cands
    · exfalso
      unfold extract_methods at hkm
      rw [hsrc] at hkm
      simp at hkm
    · unfold extract_methods at hkm
      rw [hsrc] at hkm
      simp only [List.mem_toFinset, List.mem_map, List.mem_filter] at hkm
      rcases hkm with ⟨r, ⟨hrc, hrf⟩, hrk⟩
      simp only [Bool.and_eq_true, decide_eq_true_eq, Bool.not_eq_true'] at hrf
      exact ⟨Q, hQ, cands, hsrc, r, hrc,
        ⟨by simpa using hrf.1, by simpa using hrf.2⟩, hrk⟩
  · intro content captures k hk
    rcases hk with hmiss | hextra | ⟨x, y, hmm⟩
    · left
      have hkd : k ∈ dkeys (expectedPy (extract_js_methods content)) :=
        ((mem_missing_iff _ _ k).mp hmiss).1
      rcases mem_dkeys_expectedPy _ _ hkd with ⟨p, hp, hpk⟩
      exact ⟨p.1, List.mem_map.mpr ⟨p, hp, rfl⟩,
        extract_js_methods_guard content p.1 (List.mem_map.mpr ⟨p, hp, rfl⟩), hpk⟩
    · right
      have hkd : k ∈ dkeys (extract_python_methods captures) :=
        ((mem_extra_iff _ _ k).mp hextra).1
      rcases mem_dkeys_extract_python_methods _ _ hkd with ⟨hus, p, hp, hpk⟩
      exact ⟨p, hp, by rw [hpk]; exact hus, hpk⟩
    · left
      rcases (mem_mismatches_iff _ _ k x y).mp hmm with
        ⟨la, _, _, _, hla, _, _, _, _, _, _⟩
      have hkd : k ∈ dkeys (expectedPy (extract_js_methods content)) :=
        mem_dkeys_of_dlookup _ _ _ hla
      rcases mem_dkeys_expectedPy _ _ hkd with ⟨p, hp, hpk⟩
      exact ⟨p.1, List.mem_map.mpr ⟨p, hp, rfl⟩,
        extract_js_methods_guard content p.1 (List.mem_map.mpr ⟨p, hp, rfl⟩), hpk⟩

/-- C7 (witness). -/
theorem C7_excluded_never_reported_witness :
    ("bar" ∈ modeA_missing
        (modeA_methods [AProfile.mk "A" (some ["foo", "bar"]) [] "snake_case",
          AProfile.mk "B" (some ["foo"]) [] "snake_case"])
        (extract_methods (AProfile.mk "B" (some ["foo"]) [] "snake_case")).2)
    ∧ ∃ Q ∈ [AProfile.mk "A" (some ["foo", "bar"]) [] "snake_case",
          AProfile.mk "B" (some ["foo"]) [] "snake_case"],
        ∃ cands, Q.source = some cands ∧
          ∃ r ∈ cands, (¬ r ∈ Q.exclude ∧ startsUnderscore r = false) ∧
            normalize_name r Q.naming = "bar" :=
  ⟨by decide,
    C7_excluded_never_reported.1
      [AProfile.mk "A" (some ["foo", "bar"]) [] "snake_case",
        AProfile.mk "B" (some ["foo"]) [] "snake_case"]
      (extract_methods (AProfile.mk "B" (some ["foo"]) [] "snake_case")).2
      "bar" (by decide)⟩

end Circular
